import Mathlib

/-!
# Verification of the aggregation & derived-metrics layer

Shallow embedding of the aggregation layer of an API-monitoring dashboard
(`src/lib/mockData.ts`, `src/components/dashboard/UsageChart.tsx`,
`src/components/dashboard/ClientDetailView.tsx`, and the revenue-loss view),
together with proofs about the embedded functions.

Modelling conventions:
* JavaScript numbers are modelled as exact rationals (`ℚ`).  Division by zero,
  which in JavaScript yields `Infinity` / `-Infinity` / `NaN`, is modelled by
  the type `JSVal` with explicit non-finite values, so that the comparison
  semantics of `<` against `NaN` and infinities is captured faithfully.
* `Math.round x` is `⌊x + 1/2⌋` (JavaScript rounds half-way cases toward +∞).
* `Map` insertion order is modelled by association lists that update the first
  matching entry in place and append new keys at the end, which is exactly the
  iteration order contract of JavaScript `Map`.
* `Array.prototype.sort` (stable since ES2019) is modelled by a stable
  insertion sort driven by the comparator.
* `String.prototype.charCodeAt` is modelled by `Char.toNat`, and
  `localeCompare`-based ordering by the codepoint order on strings.
-/

/-- A JavaScript number that may be non-finite: the result of an unguarded
division can be `Infinity`, `-Infinity` or `NaN`. -/
inductive JSVal where
  | nan
  | posInf
  | negInf
  | fin (q : ℚ)
deriving DecidableEq

/-- JavaScript division `a / b` on finite operands: finite quotient when
`b ≠ 0`, otherwise `Infinity`, `-Infinity` or `NaN` according to the sign of
the numerator. -/
def jsDiv (a b : ℚ) : JSVal :=
  if b = 0 then
    if 0 < a then .posInf else if a < 0 then .negInf else .nan
  else .fin (a / b)

/-- Multiplication of a JavaScript value by a finite constant `k`. -/
def JSVal.mulC (v : JSVal) (k : ℚ) : JSVal :=
  match v with
  | .nan => .nan
  | .posInf => if 0 < k then .posInf else if k < 0 then .negInf else .nan
  | .negInf => if 0 < k then .negInf else if k < 0 then .posInf else .nan
  | .fin q => .fin (q * k)

/-- The JavaScript comparison `v < b` against a finite bound: `false` for
`NaN` and `Infinity`, `true` for `-Infinity`. -/
def JSVal.ltQ (v : JSVal) (b : ℚ) : Bool :=
  match v with
  | .nan => false
  | .posInf => false
  | .negInf => true
  | .fin q => decide (q < b)

/-- JavaScript `Math.round`: round half-way cases toward positive infinity. -/
def jsRound (q : ℚ) : ℤ := ⌊q + 1/2⌋

/-- Health classification of an API record. -/
inductive Status where
  | healthy
  | warning
  | critical
deriving DecidableEq

/-- Severity rank of a status: `healthy < warning < critical`. -/
def sevRank : Status → ℕ
  | .healthy => 0
  | .warning => 1
  | .critical => 2

/-- `statusBreakdown` field of an API record (`mockData.ts`). -/
structure StatusBreakdown where
  success : ℤ
  sourceDown : ℤ
  notFound : ℤ
  otherError : ℤ
deriving DecidableEq

/-- One entry of the `statusTimeline` series of an API record. -/
structure TimelineEntry where
  date : String
  success : ℤ
  sourceDown : ℤ
  notFound : ℤ
  otherError : ℤ
deriving DecidableEq

/-- The `APIData` record of `mockData.ts`.  The three merged time-series
fields (`dailyData`, `weeklyData`, `monthlyData`) are omitted: no claim under
verification mentions them. -/
structure APIData where
  id : String
  name : String
  client : String
  status : Status
  currentCalls : ℤ
  previousCalls : ℤ
  threshold : ℚ
  relativeThreshold : ℚ
  trend : ℚ
  statusBreakdown : StatusBreakdown
  statusTimeline : List TimelineEntry
deriving DecidableEq

/-- `percentChange` as computed in `determineStatus` (`mockData.ts` line 137):
`((currentCalls - previousCalls) / previousCalls) * 100`, an unguarded
JavaScript division. -/
def percentChangeJS (currentCalls previousCalls : ℚ) : JSVal :=
  (jsDiv (currentCalls - previousCalls) previousCalls).mulC 100

/-- `determineStatus` (`mockData.ts` lines 136-146). -/
def determineStatus (currentCalls previousCalls threshold relativeThreshold : ℚ) :
    Status :=
  if currentCalls < threshold * (1/2)
      ∨ (percentChangeJS currentCalls previousCalls).ltQ
          (-relativeThreshold * (3/2)) = true then
    .critical
  else if currentCalls < threshold
      ∨ (percentChangeJS currentCalls previousCalls).ltQ (-relativeThreshold) = true then
    .warning
  else
    .healthy

/-- The zero-guarded percent change demanded by the spec: `0` when
`previousCalls == 0`, the plain rational formula otherwise. -/
def guardedPercentChange (currentCalls previousCalls : ℚ) : ℚ :=
  if previousCalls = 0 then 0 else (currentCalls - previousCalls) / previousCalls * 100

/-- The classifier as the claim states it: the same rules evaluated in order,
with `percentChange` zero-guarded to `0` when `previousCalls == 0`.  This
definition follows the claim's words; it is compared with `determineStatus`,
which is translated from the source. -/
def determineStatusSpec (currentCalls previousCalls threshold relativeThreshold : ℚ) :
    Status :=
  if currentCalls < threshold * (1/2)
      ∨ guardedPercentChange currentCalls previousCalls
          < -relativeThreshold * (3/2) then
    .critical
  else if currentCalls < threshold
      ∨ guardedPercentChange currentCalls previousCalls < -relativeThreshold then
    .warning
  else
    .healthy

/-- Result record of `getAggregatedStats` (`mockData.ts` lines 194-211). -/
structure AggregatedStats where
  totalCalls : ℤ
  previousTotalCalls : ℤ
  totalChange : JSVal
  activeAPIs : ℕ
  healthyCount : ℕ
  warningCount : ℕ
  criticalCount : ℕ
  alertCount : ℕ
deriving DecidableEq

/-- `getAggregatedStats` (`mockData.ts` lines 194-211).  Note that
`totalChange` is the unguarded division of the source. -/
def getAggregatedStats (apis : List APIData) : AggregatedStats :=
  let totalCalls := apis.foldl (fun s a => s + a.currentCalls) 0
  let previousTotalCalls := apis.foldl (fun s a => s + a.previousCalls) 0
  let healthyCount := (apis.filter (fun a => decide (a.status = .healthy))).length
  let warningCount := (apis.filter (fun a => decide (a.status = .warning))).length
  let criticalCount := (apis.filter (fun a => decide (a.status = .critical))).length
  { totalCalls := totalCalls
    previousTotalCalls := previousTotalCalls
    totalChange :=
      (jsDiv ((totalCalls : ℚ) - (previousTotalCalls : ℚ)) (previousTotalCalls : ℚ)).mulC 100
    activeAPIs := apis.length
    healthyCount := healthyCount
    warningCount := warningCount
    criticalCount := criticalCount
    alertCount := warningCount + criticalCount }

/-- Wrap an integer into the signed 32-bit range, as JavaScript `| 0` does. -/
def toInt32 (n : ℤ) : ℤ := (n + 2 ^ 31) % 2 ^ 32 - 2 ^ 31

namespace UsageChart

/-- One step of the string hash of `splitCalls` (`UsageChart.tsx` lines 31-35):
`hash = ((hash << 5) - hash) + key.charCodeAt(i); hash |= 0`.  The shift `<< 5`
is itself a 32-bit operation. -/
def hashStep (hash : ℤ) (c : Char) : ℤ :=
  toInt32 (toInt32 (hash * 32) - hash + c.toNat)

/-- The accumulated hash over the key's characters (`UsageChart.tsx`). -/
def hashString (key : String) : ℤ := key.data.foldl hashStep 0

/-- `ratio = 0.3 + (Math.abs(hash) % 20) / 100` (`UsageChart.tsx` line 36). -/
def splitRatio (key : String) : ℚ :=
  3 / 10 + (((hashString key).natAbs % 20 : ℕ) : ℚ) / 100

/-- `splitCalls` (`UsageChart.tsx` lines 30-39): deterministic split of a call
count into `(internal, external)`. -/
def splitCalls (calls : ℤ) (key : String) : ℤ × ℤ :=
  let internal := jsRound ((calls : ℚ) * splitRatio key)
  (internal, calls - internal)

end UsageChart

namespace ClientDetailView

/-- One step of the string hash of `splitValue` (`ClientDetailView.tsx`
lines 144-148), an independent copy of the hash in `UsageChart.tsx`. -/
def hashStep (hash : ℤ) (c : Char) : ℤ :=
  toInt32 (toInt32 (hash * 32) - hash + c.toNat)

/-- The accumulated hash over the key's characters (`ClientDetailView.tsx`). -/
def hashString (key : String) : ℤ := key.data.foldl hashStep 0

/-- `ratio = 0.3 + (Math.abs(hash) % 20) / 100` (`ClientDetailView.tsx`). -/
def splitRatio (key : String) : ℚ :=
  3 / 10 + (((hashString key).natAbs % 20 : ℕ) : ℚ) / 100

/-- `splitValue` (`ClientDetailView.tsx` lines 143-152): deterministic split
of a value into `(internal, external)`. -/
def splitValue (value : ℤ) (key : String) : ℤ × ℤ :=
  let internal := jsRound ((value : ℚ) * splitRatio key)
  (internal, value - internal)

end ClientDetailView

/-- Keep the first occurrence of every string, in order of first encounter:
the key sequence produced by folding records into a JavaScript `Map`. -/
def dedupFirst : List String → List String
  | [] => []
  | c :: cs => c :: dedupFirst (cs.filter (fun x => decide (x ≠ c)))
termination_by l => l.length
decreasing_by
  simp only [List.length_cons]
  exact Nat.lt_succ_of_le (List.length_filter_le _ _)

section GroupBy

variable {α β : Type}

/-- One step of a `Map`-backed group-by: `map.get(key) || empty` followed by
`map.set(key, add entry item)`.  Updating an existing key keeps its position;
a new key is appended at the end, as JavaScript `Map` insertion order does. -/
def upsertBy (keyOf : α → String) (key : β → String) (emptyFor : String → α)
    (add : α → β → α) : List α → β → List α
  | [], b => [add (emptyFor (key b)) b]
  | e :: es, b =>
    if keyOf e = key b then add e b :: es
    else e :: upsertBy keyOf key emptyFor add es b

/-- Fold a list of items into grouped entries, starting from `acc`. -/
def groupFold (keyOf : α → String) (key : β → String) (emptyFor : String → α)
    (add : α → β → α) (acc : List α) (l : List β) : List α :=
  l.foldl (upsertBy keyOf key emptyFor add) acc

/-- First entry with the given key, as `Map.get` on the association list. -/
def lookupBy (keyOf : α → String) (g : List α) (k : String) : Option α :=
  g.find? (fun e => decide (keyOf e = k))

/-- Stable insertion driven by a JavaScript comparator: `bf x y` is
`comparator x y < 0`, i.e. `x` must come strictly before `y`.  The element is
inserted before the first entry it must precede, hence after all equal ones. -/
def insBefore (bf : α → α → Bool) (x : α) : List α → List α
  | [] => [x]
  | y :: ys => if bf x y then x :: y :: ys else y :: insBefore bf x ys

/-- A stable sort (`Array.prototype.sort` is stable): repeatedly insert the
elements, in their original order, into the sorted prefix. -/
def stableSortBy (bf : α → α → Bool) (l : List α) : List α :=
  l.foldl (fun acc x => insBefore bf x acc) []

end GroupBy

/-- The per-client accumulator of `getClientUsageData` (`mockData.ts`
lines 245-262): totals, previous totals and member count for one client.  The
three merged time-series maps are omitted: no claim mentions them. -/
structure ClientAcc where
  client : String
  totalCalls : ℤ
  previousCalls : ℤ
  apiCount : ℕ
deriving DecidableEq

/-- The default accumulator used when a client is first encountered
(`mockData.ts` lines 255-262). -/
def emptyClientAcc (c : String) : ClientAcc := ⟨c, 0, 0, 0⟩

/-- Folding one API record into its client's accumulator (`mockData.ts`
lines 264-266). -/
def addClientAcc (e : ClientAcc) (api : APIData) : ClientAcc :=
  { e with
    totalCalls := e.totalCalls + api.currentCalls
    previousCalls := e.previousCalls + api.previousCalls
    apiCount := e.apiCount + 1 }

/-- The `clientMap` of `getClientUsageData` after folding all records, as an
insertion-ordered association list (`mockData.ts` lines 254-285). -/
def clientGroups (apis : List APIData) : List ClientAcc :=
  groupFold ClientAcc.client APIData.client emptyClientAcc addClientAcc [] apis

/-- Output entry of `getClientUsageData` (`mockData.ts` lines 234-242, the
time-series fields omitted as above).  `trend` keeps the unguarded JavaScript
division of the source (line 294). -/
structure ClientUsageData where
  client : String
  totalCalls : ℤ
  apiCount : ℕ
  trend : JSVal
deriving DecidableEq

/-- Mapping one accumulator to an output entry (`mockData.ts` lines 290-305):
`trend = ((totalCalls - previousCalls) / previousCalls) * 100`, unguarded. -/
def toClientUsage (e : ClientAcc) : ClientUsageData :=
  { client := e.client
    totalCalls := e.totalCalls
    apiCount := e.apiCount
    trend :=
      (jsDiv ((e.totalCalls : ℚ) - (e.previousCalls : ℚ)) (e.previousCalls : ℚ)).mulC 100 }

/-- The comparator `(a, b) => b.totalCalls - a.totalCalls` (`mockData.ts`
line 306): `a` goes strictly before `b` iff `b.totalCalls < a.totalCalls`. -/
def bfClientUsage (a b : ClientUsageData) : Bool := decide (b.totalCalls < a.totalCalls)

/-- `getClientUsageData` (`mockData.ts` lines 244-307): group the records by
client, map each group to an output entry, and sort descending by
`totalCalls` with the stable sort. -/
def getClientUsageData (apis : List APIData) : List ClientUsageData :=
  stableSortBy bfClientUsage ((clientGroups apis).map toClientUsage)

namespace ClientDetailView

/-- One aggregated day of `dailyStatusData` in the `APIConsumptionChart`
component (`ClientDetailView.tsx`). -/
structure StatusDayData where
  date : String
  success : ℤ
  sourceDown : ℤ
  notFound : ℤ
  timeout : ℤ
  otherError : ℤ
  total : ℤ
deriving DecidableEq

/-- The default day entry used when a date is first encountered. -/
def emptyStatusDay (d : String) : StatusDayData := ⟨d, 0, 0, 0, 0, 0, 0⟩

/-- Folding one timeline entry into its day (`ClientDetailView.tsx`,
`dailyStatusData`): `timeout` is simulated as `Math.round(otherError * 0.4)`
of each record's entry, the rest of `otherError` stays, and `total` is
accumulated from the four input fields. -/
def addStatusDay (e : StatusDayData) (day : TimelineEntry) : StatusDayData :=
  let timeoutPart := jsRound ((day.otherError : ℚ) * (2/5))
  { e with
    success := e.success + day.success
    sourceDown := e.sourceDown + day.sourceDown
    notFound := e.notFound + day.notFound
    timeout := e.timeout + timeoutPart
    otherError := e.otherError + (day.otherError - timeoutPart)
    total := e.total + (day.success + day.sourceDown + day.notFound + day.otherError) }

/-- The comparator `(a, b) => a.date.localeCompare(b.date)`: ascending by
date. -/
def bfDate (a b : StatusDayData) : Bool := decide (a.date < b.date)

/-- The day map of `dailyStatusData` after the nested loops over records and
their `statusTimeline` entries. -/
def dayGroups (apis : List APIData) : List StatusDayData :=
  apis.foldl
    (fun acc api =>
      api.statusTimeline.foldl
        (upsertBy StatusDayData.date TimelineEntry.date emptyStatusDay addStatusDay) acc)
    []

/-- `dailyStatusData` of `APIConsumptionChart` (`ClientDetailView.tsx`
lines 174-201): sum each record's `statusTimeline` entries keyed by date,
then sort ascending by date. -/
def dailyStatusData (apis : List APIData) : List StatusDayData :=
  stableSortBy bfDate (dayGroups apis)

end ClientDetailView

namespace RevenueDetailView

/-- `RATE_PER_CALL = 0.012` (the revenue-loss view, line 17). -/
def RATE_PER_CALL : ℚ := 12 / 1000

/-- One entry of `perDayLoss` (revenue-loss view, lines 28-32). -/
structure PerDayLoss where
  date : String
  sourceDown : ℤ
  revenueLoss : ℚ
deriving DecidableEq

/-- One entry of `apiRevenueLoss` (revenue-loss view, lines 24-36). -/
structure APILoss where
  api : APIData
  totalSourceDown : ℤ
  revenueLoss : ℚ
  perDayLoss : List PerDayLoss
deriving DecidableEq

/-- The comparator `(a, b) => b.revenueLoss - a.revenueLoss`. -/
def bfAPILoss (a b : APILoss) : Bool := decide (b.revenueLoss < a.revenueLoss)

/-- `apiRevenueLoss` (revenue-loss view, lines 24-36): per-record loss data,
keeping only records with `totalSourceDown > 0`, sorted descending by
`revenueLoss`. -/
def apiRevenueLoss (apis : List APIData) : List APILoss :=
  stableSortBy bfAPILoss
    ((apis.map fun api =>
        { api := api
          totalSourceDown := api.statusBreakdown.sourceDown
          revenueLoss := (api.statusBreakdown.sourceDown : ℚ) * RATE_PER_CALL
          perDayLoss := api.statusTimeline.map fun d =>
            ⟨d.date, d.sourceDown, (d.sourceDown : ℚ) * RATE_PER_CALL⟩ : APILoss }
      ).filter fun a => decide (0 < a.totalSourceDown))

/-- One item of the day drill-down (revenue-loss view, lines 74-81). -/
structure DayAPI where
  id : String
  name : String
  client : String
  sourceDown : ℤ
  revenueLoss : ℚ
  contribution : ℚ
deriving DecidableEq

/-- `dayAPIs` (revenue-loss view, lines 68-84): the per-day loss of every
listed record on the selected day, skipping days that are absent or have
`sourceDown === 0`; `contribution` starts at `0`. -/
def dayAPIs (apis : List APIData) (selectedDay : String) : List DayAPI :=
  (apiRevenueLoss apis).filterMap fun a =>
    match a.perDayLoss.find? (fun d => decide (d.date = selectedDay)) with
    | none => none
    | some d =>
      if d.sourceDown = 0 then none
      else some ⟨a.api.id, a.api.name, a.api.client, d.sourceDown, d.revenueLoss, 0⟩

/-- `totalDayLoss = dayAPIs.reduce((s, a) => s + a.revenueLoss, 0)`
(revenue-loss view, line 88). -/
def dayLossTotal (apis : List APIData) (selectedDay : String) : ℚ :=
  (dayAPIs apis selectedDay).foldl (fun s a => s + a.revenueLoss) 0

/-- The comparator `(a, b) => b.revenueLoss - a.revenueLoss` on day items. -/
def bfDayAPI (a b : DayAPI) : Bool := decide (b.revenueLoss < a.revenueLoss)

/-- `dayAPIsWithContribution` (revenue-loss view, lines 87-92):
`contribution = revenueLoss / totalDayLoss * 100` when the day's total loss is
positive, `0` otherwise, then sort descending by `revenueLoss`. -/
def dayAPIsWithContribution (apis : List APIData) (selectedDay : String) : List DayAPI :=
  let totalDayLoss := dayLossTotal apis selectedDay
  stableSortBy bfDayAPI
    ((dayAPIs apis selectedDay).map fun a =>
      { a with
        contribution :=
          if 0 < totalDayLoss then a.revenueLoss / totalDayLoss * 100 else 0 })

end RevenueDetailView

/-- A sample API record with the given client and volumes; the remaining
fields are fixed neutral values. -/
def mkApi (client : String) (cur prev : ℤ) : APIData :=
  { id := "api-1"
    name := "User Authentication"
    client := client
    status := .healthy
    currentCalls := cur
    previousCalls := prev
    threshold := 0
    relativeThreshold := 0
    trend := 0
    statusBreakdown := ⟨0, 0, 0, 0⟩
    statusTimeline := [] }

/-- A sample API record with the given client, id, `statusBreakdown.sourceDown`
count and a one-day status timeline carrying the given `sourceDown` count. -/
def mkApiSD (client id : String) (sd : ℤ) (day : String) (daySD : ℤ) : APIData :=
  { id := id
    name := "Payment Gateway"
    client := client
    status := .healthy
    currentCalls := 0
    previousCalls := 0
    threshold := 0
    relativeThreshold := 0
    trend := 0
    statusBreakdown := ⟨0, sd, 0, 0⟩
    statusTimeline := [⟨day, 0, daySD, 0, 0⟩] }

/-- The order that a stable sort with comparator-before-test `bf` produces
when the input is ordered by `P`: either strictly before by the comparator,
or tied under the comparator and already ordered by `P`. -/
def sortRel {α : Type} (bf : α → α → Bool) (P : α → α → Prop) (a b : α) : Prop :=
  bf a b = true ∨ (bf a b = false ∧ bf b a = false ∧ P a b)

/-! ## Theorems -/

theorem ltQ_percentChangeJS (c p b : ℚ) (hc : 0 ≤ c) (hb : b ≤ 0) :
    (percentChangeJS c p).ltQ b = true ↔ guardedPercentChange c p < b := by
  unfold percentChangeJS jsDiv guardedPercentChange
  by_cases hp0 : p = 0
  · subst hp0
    rw [if_pos rfl, if_pos rfl, sub_zero]
    by_cases hc0 : 0 < c
    · rw [if_pos hc0]
      show (JSVal.posInf.mulC 100).ltQ b = true ↔ (0 : ℚ) < b
      constructor
      · intro h
        simp [JSVal.mulC, JSVal.ltQ] at h
      · intro h
        linarith
    · have hc0' : c = 0 := le_antisymm (not_lt.mp hc0) hc
      subst hc0'
      rw [if_neg hc0, if_neg (lt_irrefl 0)]
      show (JSVal.nan.mulC 100).ltQ b = true ↔ (0 : ℚ) < b
      constructor
      · intro h
        simp [JSVal.mulC, JSVal.ltQ] at h
      · intro h
        linarith
  · rw [if_neg hp0, if_neg hp0]
    show ((JSVal.fin ((c - p) / p)).mulC 100).ltQ b = true ↔ (c - p) / p * 100 < b
    simp [JSVal.mulC, JSVal.ltQ]

theorem determineStatus_eq_guarded (c p t r : ℚ)
    (hc : 0 ≤ c) (hp : 0 ≤ p) (hr : 0 ≤ r) :
    determineStatus c p t r = determineStatusSpec c p t r := by
  have h1 := ltQ_percentChangeJS c p (-r * (3/2)) hc (by linarith)
  have h2 := ltQ_percentChangeJS c p (-r) hc (by linarith)
  unfold determineStatus determineStatusSpec
  simp only [h1, h2]

/-- C3: for all non-negative `currentCalls`, `previousCalls`, `threshold` and
`relativeThreshold`, `determineStatus` evaluates its rules in order with first
match winning — critical on `currentCalls < threshold * 0.5` or
`percentChange < -relativeThreshold * 1.5`, else warning on
`currentCalls < threshold` or `percentChange < -relativeThreshold`, else
healthy — where `percentChange` is `(currentCalls - previousCalls) /
previousCalls * 100` zero-guarded to `0` when `previousCalls == 0`
(`determineStatusSpec` states exactly these rules). -/
theorem determineStatus_first_match_zero_guarded (c p t r : ℚ)
    (hc : 0 ≤ c) (hp : 0 ≤ p) (ht : 0 ≤ t) (hr : 0 ≤ r) :
    determineStatus c p t r = determineStatusSpec c p t r :=
  determineStatus_eq_guarded c p t r hc hp hr

/-- Witness for C3 at `currentCalls = 40`, `previousCalls = 100`,
`threshold = 50`, `relativeThreshold = 20`. -/
theorem determineStatus_first_match_zero_guarded_witness :
    (0 : ℚ) ≤ 40 ∧ (0 : ℚ) ≤ 100 ∧ (0 : ℚ) ≤ 50 ∧ (0 : ℚ) ≤ 20
      ∧ determineStatus 40 100 50 20 = determineStatusSpec 40 100 50 20
      ∧ determineStatus 40 100 50 20 = Status.critical :=
  ⟨by norm_num, by norm_num, by norm_num, by norm_num,
   determineStatus_first_match_zero_guarded 40 100 50 20
     (by norm_num) (by norm_num) (by norm_num) (by norm_num),
   by norm_num [determineStatus, percentChangeJS, jsDiv, JSVal.mulC, JSVal.ltQ]⟩

theorem guardedPercentChange_mono (c₁ c₂ p : ℚ) (hp : 0 ≤ p) (hle : c₂ ≤ c₁) :
    guardedPercentChange c₂ p ≤ guardedPercentChange c₁ p := by
  unfold guardedPercentChange
  split_ifs with h
  · exact le_refl 0
  · have hp' : 0 < p := lt_of_le_of_ne hp (Ne.symm h)
    gcongr

theorem sevRank_spec_mono (c₁ c₂ p t r : ℚ) (hp : 0 ≤ p) (hle : c₂ ≤ c₁) :
    sevRank (determineStatusSpec c₁ p t r) ≤ sevRank (determineStatusSpec c₂ p t r) := by
  have hq := guardedPercentChange_mono c₁ c₂ p hp hle
  have hA : (c₁ < t * (1/2) ∨ guardedPercentChange c₁ p < -r * (3/2)) →
      (c₂ < t * (1/2) ∨ guardedPercentChange c₂ p < -r * (3/2)) := by
    rintro (h | h)
    · exact Or.inl (lt_of_le_of_lt hle h)
    · exact Or.inr (lt_of_le_of_lt hq h)
  have hW : (c₁ < t ∨ guardedPercentChange c₁ p < -r) →
      (c₂ < t ∨ guardedPercentChange c₂ p < -r) := by
    rintro (h | h)
    · exact Or.inl (lt_of_le_of_lt hle h)
    · exact Or.inr (lt_of_le_of_lt hq h)
  unfold determineStatusSpec
  split_ifs <;> simp only [sevRank] <;>
    first
      | omega
      | (exact absurd (hA (by assumption)) (by assumption))
      | (exact absurd (hW (by assumption)) (by assumption))

/-- C7: holding `previousCalls`, `threshold`, `relativeThreshold` fixed and
non-negative, decreasing `currentCalls` never makes the classification of
`determineStatus` less severe: for `c₂ ≤ c₁` the severity rank of the result
at `c₂` is at least the severity rank at `c₁`. -/
theorem determineStatus_monotone_in_volume (c₁ c₂ p t r : ℚ)
    (hc₂ : 0 ≤ c₂) (hle : c₂ ≤ c₁) (hp : 0 ≤ p) (ht : 0 ≤ t) (hr : 0 ≤ r) :
    sevRank (determineStatus c₁ p t r) ≤ sevRank (determineStatus c₂ p t r) := by
  rw [determineStatus_eq_guarded c₁ p t r (le_trans hc₂ hle) hp hr,
      determineStatus_eq_guarded c₂ p t r hc₂ hp hr]
  exact sevRank_spec_mono c₁ c₂ p t r hp hle

/-- Witness for C7 at `c₁ = 100`, `c₂ = 30`, `previousCalls = 100`,
`threshold = 50`, `relativeThreshold = 20`. -/
theorem determineStatus_monotone_in_volume_witness :
    (0 : ℚ) ≤ 30 ∧ (30 : ℚ) ≤ 100 ∧ (0 : ℚ) ≤ 100 ∧ (0 : ℚ) ≤ 50 ∧ (0 : ℚ) ≤ 20
      ∧ sevRank (determineStatus 100 100 50 20) ≤ sevRank (determineStatus 30 100 50 20) :=
  ⟨by norm_num, by norm_num, by norm_num, by norm_num, by norm_num,
   determineStatus_monotone_in_volume 100 30 100 50 20
     (by norm_num) (by norm_num) (by norm_num) (by norm_num) (by norm_num)⟩

/-- C8: when `currentCalls == threshold` with `threshold > 0` and the
percent-change test fails (`percentChange < -relativeThreshold` is false),
`determineStatus` returns `healthy`: every volume comparison is a strict
less-than, so equality with the threshold is not a breach. -/
theorem determineStatus_at_threshold_healthy (t p r : ℚ)
    (ht : 0 < t) (hp : 0 ≤ p) (hr : 0 ≤ r)
    (hpc : (percentChangeJS t p).ltQ (-r) = false) :
    determineStatus t p t r = Status.healthy := by
  have h32 : (percentChangeJS t p).ltQ (-r * (3/2)) = false := by
    rcases hv : percentChangeJS t p with _ | _ | _ | q
    · simp [JSVal.ltQ]
    · simp [JSVal.ltQ]
    · rw [hv] at hpc
      simp [JSVal.ltQ] at hpc
    · rw [hv] at hpc
      simp only [JSVal.ltQ, decide_eq_false_iff_not] at hpc ⊢
      intro h
      exact hpc (by linarith)
  have hA : ¬(t < t * (1/2)
      ∨ (percentChangeJS t p).ltQ (-r * (3/2)) = true) := by
    rintro (h | h)
    · linarith
    · rw [h32] at h
      exact Bool.false_ne_true h
  have hB : ¬(t < t ∨ (percentChangeJS t p).ltQ (-r) = true) := by
    rintro (h | h)
    · exact lt_irrefl t h
    · rw [hpc] at h
      exact Bool.false_ne_true h
  unfold determineStatus
  rw [if_neg hA, if_neg hB]

/-- Witness for C8 at `threshold = currentCalls = 50`, `previousCalls = 50`,
`relativeThreshold = 20`. -/
theorem determineStatus_at_threshold_healthy_witness :
    (0 : ℚ) < 50 ∧ (0 : ℚ) ≤ 50 ∧ (0 : ℚ) ≤ 20
      ∧ (percentChangeJS 50 50).ltQ (-20) = false
      ∧ determineStatus 50 50 50 20 = Status.healthy :=
  ⟨by norm_num, by norm_num, by norm_num,
   by norm_num [percentChangeJS, jsDiv, JSVal.mulC, JSVal.ltQ],
   determineStatus_at_threshold_healthy 50 50 20 (by norm_num) (by norm_num) (by norm_num)
     (by norm_num [percentChangeJS, jsDiv, JSVal.mulC, JSVal.ltQ])⟩

/-- C10: the two independent copies of the deterministic split — `splitCalls`
in `UsageChart.tsx` and `splitValue` in `ClientDetailView.tsx` — are
extensionally equal: they return the same `(internal, external)` pair on
every value and key. -/
theorem splitCalls_eq_splitValue (value : ℤ) (key : String) :
    UsageChart.splitCalls value key = ClientDetailView.splitValue value key := rfl

/-- C2: for every non-negative integer value and every key, the split is
exact (`internal + external = value`), `internal` is the rounding of
`value * ratio` with the remainder assigned to `external`, the ratio
`0.3 + (|hash key| mod 20) / 100` always lies in `[0.30, 0.49]` and is a
function of the key alone, and identical `(value, key)` arguments give
identical results. -/
theorem splitCalls_exact (value : ℤ) (key : String) (hv : 0 ≤ value) :
    (UsageChart.splitCalls value key).1 + (UsageChart.splitCalls value key).2 = value
      ∧ (UsageChart.splitCalls value key).1
          = jsRound ((value : ℚ) * UsageChart.splitRatio key)
      ∧ (UsageChart.splitCalls value key).2
          = value - (UsageChart.splitCalls value key).1
      ∧ 3 / 10 ≤ UsageChart.splitRatio key
      ∧ UsageChart.splitRatio key ≤ 49 / 100
      ∧ ∀ v' k', v' = value → k' = key →
          UsageChart.splitCalls v' k' = UsageChart.splitCalls value key := by
  refine ⟨by unfold UsageChart.splitCalls; ring, rfl, rfl, ?_, ?_, ?_⟩
  · unfold UsageChart.splitRatio
    have h0 : (0 : ℚ) ≤ (((UsageChart.hashString key).natAbs % 20 : ℕ) : ℚ) / 100 := by
      positivity
    linarith
  · unfold UsageChart.splitRatio
    have hk : (UsageChart.hashString key).natAbs % 20 ≤ 19 :=
      Nat.le_of_lt_succ (Nat.mod_lt _ (by norm_num))
    have hk' : (((UsageChart.hashString key).natAbs % 20 : ℕ) : ℚ) ≤ 19 := by
      exact_mod_cast hk
    linarith
  · intro v' k' hv' hk'
    rw [hv', hk']

/-- Witness for C2 at `value = 7`, `key = "a"`. -/
theorem splitCalls_exact_witness :
    (0 : ℤ) ≤ 7
      ∧ ((UsageChart.splitCalls 7 "a").1 + (UsageChart.splitCalls 7 "a").2 = 7
          ∧ (UsageChart.splitCalls 7 "a").1
              = jsRound ((7 : ℚ) * UsageChart.splitRatio "a")
          ∧ (UsageChart.splitCalls 7 "a").2 = 7 - (UsageChart.splitCalls 7 "a").1
          ∧ 3 / 10 ≤ UsageChart.splitRatio "a"
          ∧ UsageChart.splitRatio "a" ≤ 49 / 100
          ∧ ∀ v' k', v' = 7 → k' = "a" →
              UsageChart.splitCalls v' k' = UsageChart.splitCalls 7 "a") :=
  ⟨by norm_num, splitCalls_exact 7 "a" (by norm_num)⟩

theorem foldl_add_sum {β M : Type} [AddCommMonoid M] (f : β → M) :
    ∀ (l : List β) (init : M), l.foldl (fun s a => s + f a) init = init + (l.map f).sum
  | [], init => by simp
  | b :: bs, init => by
    simp only [List.foldl_cons, List.map_cons, List.sum_cons]
    rw [foldl_add_sum f bs (init + f b), add_assoc]

/-- C6: `getAggregatedStats` returns the sums of `currentCalls` and
`previousCalls`, the status counts, and `alertCount = warningCount +
criticalCount`; on the two records `(current 100, previous 80)` and
`(current 50, previous 100)` it returns `totalCalls = 150`,
`previousTotalCalls = 180` and `totalChange = -50/3 ≈ -16.67`. -/
theorem getAggregatedStats_fields (apis : List APIData) :
    (getAggregatedStats apis).totalCalls = (apis.map (·.currentCalls)).sum
      ∧ (getAggregatedStats apis).previousTotalCalls = (apis.map (·.previousCalls)).sum
      ∧ (getAggregatedStats apis).healthyCount
          = apis.countP (fun a => decide (a.status = .healthy))
      ∧ (getAggregatedStats apis).warningCount
          = apis.countP (fun a => decide (a.status = .warning))
      ∧ (getAggregatedStats apis).criticalCount
          = apis.countP (fun a => decide (a.status = .critical))
      ∧ (getAggregatedStats apis).alertCount
          = (getAggregatedStats apis).warningCount
              + (getAggregatedStats apis).criticalCount
      ∧ (getAggregatedStats [mkApi "Acme Corp" 100 80, mkApi "TechFlow" 50 100]).totalCalls
          = 150
      ∧ (getAggregatedStats
            [mkApi "Acme Corp" 100 80, mkApi "TechFlow" 50 100]).previousTotalCalls
          = 180
      ∧ (getAggregatedStats [mkApi "Acme Corp" 100 80, mkApi "TechFlow" 50 100]).totalChange
          = JSVal.fin (-50 / 3) := by
  refine ⟨?_, ?_, ?_, ?_, ?_, rfl, ?_, ?_, ?_⟩
  · show apis.foldl (fun s a => s + a.currentCalls) 0 = _
    rw [foldl_add_sum]
    exact zero_add _
  · show apis.foldl (fun s a => s + a.previousCalls) 0 = _
    rw [foldl_add_sum]
    exact zero_add _
  · exact (List.countP_eq_length_filter _ _).symm
  · exact (List.countP_eq_length_filter _ _).symm
  · exact (List.countP_eq_length_filter _ _).symm
  · simp [getAggregatedStats, mkApi]
  · simp [getAggregatedStats, mkApi]
  · norm_num [getAggregatedStats, mkApi, jsDiv, JSVal.mulC]

/-- C1 fails on the code: with a single record having `currentCalls = 100`
and `previousCalls = 0`, the summed previous volume is `0`, yet
`getAggregatedStats` returns `totalChange = Infinity` (not `0`) and
`getClientUsageData` returns `trend = Infinity` (not `0`): both sites divide
without the zero guard that the spec mandates. -/
theorem unguarded_totalChange_and_trend_at_zero_previous :
    (getAggregatedStats [mkApi "Acme Corp" 100 0]).totalChange = JSVal.posInf
      ∧ (getClientUsageData [mkApi "Acme Corp" 100 0]).map (·.trend) = [JSVal.posInf]
      ∧ JSVal.posInf ≠ JSVal.fin 0 := by
  refine ⟨?_, ?_, by simp⟩
  · norm_num [getAggregatedStats, mkApi, jsDiv, JSVal.mulC]
  · norm_num [getClientUsageData, clientGroups, groupFold, upsertBy, stableSortBy,
      insBefore, toClientUsage, emptyClientAcc, addClientAcc, mkApi, jsDiv, JSVal.mulC]

theorem dedupFirst_nodup_mem (l : List String) :
    (dedupFirst l).Nodup ∧ ∀ c, c ∈ dedupFirst l ↔ c ∈ l := by
  induction l using dedupFirst.induct with
  | case1 => simp [dedupFirst]
  | case2 c cs ih =>
    obtain ⟨ihn, ihm⟩ := ih
    rw [dedupFirst]
    constructor
    · refine List.nodup_cons.mpr ⟨fun hc => ?_, ihn⟩
      have := (ihm c).mp hc
      simp [List.mem_filter] at this
    · intro x
      simp only [List.mem_cons, ihm x, List.mem_filter, decide_eq_true_eq]
      constructor
      · rintro (rfl | ⟨hx, _⟩)
        · exact Or.inl rfl
        · exact Or.inr hx
      · intro hx
        rcases hx with rfl | hx
        · exact Or.inl rfl
        · by_cases hxc : x = c
          · exact Or.inl hxc
          · exact Or.inr ⟨hx, hxc⟩

section GroupByLemmas

variable {α β : Type} (keyOf : α → String) (key : β → String)
  (emptyFor : String → α) (add : α → β → α)

theorem upsertBy_map_keyOf
    (hAdd : ∀ a b, keyOf (add a b) = keyOf a) (hEmpty : ∀ k, keyOf (emptyFor k) = k) :
    ∀ (acc : List α) (b : β),
      (upsertBy keyOf key emptyFor add acc b).map keyOf =
        if key b ∈ acc.map keyOf then acc.map keyOf else acc.map keyOf ++ [key b]
  | [], b => by simp [upsertBy, hAdd, hEmpty]
  | e :: es, b => by
    by_cases h : keyOf e = key b
    · rw [upsertBy, if_pos h]
      simp only [List.map_cons, hAdd]
      rw [if_pos (show key b ∈ keyOf e :: es.map keyOf by
        rw [h]; exact List.mem_cons_self _ _)]
    · rw [upsertBy, if_neg h]
      simp only [List.map_cons]
      rw [upsertBy_map_keyOf hAdd hEmpty es b]
      by_cases hm : key b ∈ es.map keyOf
      · rw [if_pos hm, if_pos (List.mem_cons_of_mem _ hm)]
      · rw [if_neg hm, if_neg, List.cons_append]
        intro hc
        rcases List.mem_cons.mp hc with hc | hc
        · exact h hc.symm
        · exact hm hc

theorem lookupBy_upsertBy
    (hAdd : ∀ a b, keyOf (add a b) = keyOf a) (hEmpty : ∀ k, keyOf (emptyFor k) = k) :
    ∀ (acc : List α) (b : β) (k : String),
      lookupBy keyOf (upsertBy keyOf key emptyFor add acc b) k =
        if key b = k then
          (match lookupBy keyOf acc k with
            | some e => some (add e b)
            | none => some (add (emptyFor (key b)) b))
        else lookupBy keyOf acc k
  | [], b, k => by
    by_cases h : key b = k
    · rw [if_pos h]
      unfold upsertBy lookupBy
      rw [List.find?_cons_of_pos _ (by simp [hAdd, hEmpty, h])]
      rfl
    · rw [if_neg h]
      unfold upsertBy lookupBy
      rw [List.find?_cons_of_neg _ (by simp [hAdd, hEmpty, h])]
  | e :: es, b, k => by
    by_cases hke : keyOf e = key b
    · rw [upsertBy, if_pos hke]
      by_cases hk : key b = k
      · rw [if_pos hk]
        unfold lookupBy
        rw [List.find?_cons_of_pos _ (by simp [hAdd, hke, hk]),
            List.find?_cons_of_pos _ (by simp [hke, hk])]
      · rw [if_neg hk]
        unfold lookupBy
        rw [List.find?_cons_of_neg _ (by simp [hAdd, hke, hk]),
            List.find?_cons_of_neg _ (by simp [hke, hk])]
    · rw [upsertBy, if_neg hke]
      by_cases hek : keyOf e = k
      · have hk : ¬ key b = k := fun h => hke (hek.trans h.symm)
        rw [if_neg hk]
        unfold lookupBy
        rw [List.find?_cons_of_pos _ (by simp [hek]),
            List.find?_cons_of_pos _ (by simp [hek])]
      · unfold lookupBy
        rw [List.find?_cons_of_neg _ (by simp [hek])]
        have := lookupBy_upsertBy hAdd hEmpty es b k
        unfold lookupBy at this
        rw [this]
        by_cases hk : key b = k
        · rw [if_pos hk, if_pos hk]
          rw [List.find?_cons_of_neg _ (by simp [hek])]
        · rw [if_neg hk, if_neg hk]
          rw [List.find?_cons_of_neg _ (by simp [hek])]

end GroupByLemmas

section GroupFoldLemmas

variable {α β : Type} (keyOf : α → String) (key : β → String)
  (emptyFor : String → α) (add : α → β → α)

theorem groupFold_map_keyOf
    (hAdd : ∀ a b, keyOf (add a b) = keyOf a) (hEmpty : ∀ k, keyOf (emptyFor k) = k) :
    ∀ (l : List β) (acc : List α),
      (groupFold keyOf key emptyFor add acc l).map keyOf =
        acc.map keyOf
          ++ dedupFirst ((l.map key).filter (fun c => decide (c ∉ acc.map keyOf)))
  | [], acc => by simp [groupFold, dedupFirst]
  | b :: bs, acc => by
    rw [groupFold, List.foldl_cons]
    rw [show (bs.foldl (upsertBy keyOf key emptyFor add)
          (upsertBy keyOf key emptyFor add acc b))
        = groupFold keyOf key emptyFor add (upsertBy keyOf key emptyFor add acc b) bs
      from rfl]
    rw [groupFold_map_keyOf hAdd hEmpty bs _, upsertBy_map_keyOf keyOf key _ _ hAdd hEmpty]
    by_cases hm : key b ∈ acc.map keyOf
    · rw [if_pos hm]
      simp only [List.map_cons, List.filter_cons]
      rw [show (decide (key b ∉ acc.map keyOf)) = false by simp [hm]]
      simp
    · rw [if_neg hm]
      simp only [List.map_cons, List.filter_cons]
      rw [show (decide (key b ∉ acc.map keyOf)) = true by simp [hm]]
      have hpt : ∀ c : String,
          (decide (c ∉ acc.map keyOf ++ [key b]))
            = ((fun x => decide (x ≠ key b)) c && (fun x => decide (x ∉ acc.map keyOf)) c) := by
        intro c
        by_cases h1 : c = key b <;> by_cases h2 : c ∈ acc.map keyOf <;> simp [h1, h2]
      calc (acc.map keyOf ++ [key b])
            ++ dedupFirst ((bs.map key).filter (fun c => decide (c ∉ acc.map keyOf ++ [key b])))
          = (acc.map keyOf ++ [key b])
            ++ dedupFirst (((bs.map key).filter (fun x => decide (x ∉ acc.map keyOf))).filter
                (fun x => decide (x ≠ key b))) := by
            rw [List.filter_filter]
            congr 1
            apply congrArg
            exact List.filter_congr (fun c _ => hpt c)
        _ = acc.map keyOf
            ++ dedupFirst (key b :: (bs.map key).filter (fun c => decide (c ∉ acc.map keyOf))) := by
            rw [dedupFirst, List.append_assoc, List.singleton_append]

end GroupFoldLemmas

section GroupFoldLookup

variable {α β : Type} (keyOf : α → String) (key : β → String)
  (emptyFor : String → α) (add : α → β → α)

theorem lookupBy_groupFold
    (hAdd : ∀ a b, keyOf (add a b) = keyOf a) (hEmpty : ∀ k, keyOf (emptyFor k) = k) :
    ∀ (l : List β) (acc : List α) (k : String),
      lookupBy keyOf (groupFold keyOf key emptyFor add acc l) k =
        match lookupBy keyOf acc k with
        | some e => some ((l.filter (fun b => decide (key b = k))).foldl add e)
        | none =>
          if k ∈ l.map key then
            some ((l.filter (fun b => decide (key b = k))).foldl add (emptyFor k))
          else none
  | [], acc, k => by
    cases h : lookupBy keyOf acc k <;> simp [groupFold, h]
  | b :: bs, acc, k => by
    rw [groupFold, List.foldl_cons]
    rw [show (bs.foldl (upsertBy keyOf key emptyFor add)
          (upsertBy keyOf key emptyFor add acc b))
        = groupFold keyOf key emptyFor add (upsertBy keyOf key emptyFor add acc b) bs
      from rfl]
    rw [lookupBy_groupFold hAdd hEmpty bs _ k,
        lookupBy_upsertBy keyOf key emptyFor add hAdd hEmpty acc b k]
    by_cases hk : key b = k
    · rw [if_pos hk]
      cases h : lookupBy keyOf acc k with
      | some e =>
        simp only [List.filter_cons, List.map_cons]
        rw [show (decide (key b = k)) = true by simp [hk], if_pos rfl]
        simp [List.foldl_cons]
      | none =>
        simp only [List.filter_cons, List.map_cons]
        rw [show (decide (key b = k)) = true by simp [hk], if_pos rfl]
        rw [if_pos (by rw [hk]; exact List.mem_cons_self _ _)]
        simp [List.foldl_cons, hk]
    · rw [if_neg hk]
      cases h : lookupBy keyOf acc k with
      | some e =>
        simp only [List.filter_cons, List.map_cons]
        rw [show (decide (key b = k)) = false by simp [hk]]
        simp
      | none =>
        simp only [List.filter_cons, List.map_cons]
        rw [show (decide (key b = k)) = false by simp [hk]]
        simp only [Bool.false_eq_true, if_false]
        by_cases hmem : k ∈ bs.map key
        · rw [if_pos hmem, if_pos (List.mem_cons_of_mem _ hmem)]
        · rw [if_neg hmem, if_neg]
          intro hc
          rcases List.mem_cons.mp hc with hc | hc
          · exact hk hc.symm
          · exact hmem hc

end GroupFoldLookup

theorem lookupBy_self {α : Type} (keyOf : α → String) :
    ∀ (g : List α), (g.map keyOf).Nodup → ∀ e ∈ g, lookupBy keyOf g (keyOf e) = some e
  | [], _, e, he => absurd he (List.not_mem_nil e)
  | x :: xs, hn, e, he => by
    rcases List.mem_cons.mp he with rfl | he
    · unfold lookupBy
      rw [List.find?_cons_of_pos _ (by simp)]
    · have hne : keyOf x ≠ keyOf e := by
        intro hcontra
        have : keyOf e ∈ xs.map keyOf := List.mem_map_of_mem keyOf he
        rw [List.map_cons, List.nodup_cons] at hn
        exact hn.1 (hcontra ▸ this)
      unfold lookupBy
      rw [List.find?_cons_of_neg _ (by simp [hne])]
      exact lookupBy_self keyOf xs (by rw [List.map_cons, List.nodup_cons] at hn; exact hn.2) e he

theorem foldl_add_field {α β M : Type} [AddCommMonoid M] (add : α → β → α)
    (f : α → M) (v : β → M) (hf : ∀ a b, f (add a b) = f a + v b) :
    ∀ (l : List β) (a : α), f (l.foldl add a) = f a + (l.map v).sum
  | [], a => by simp
  | b :: bs, a => by
    rw [List.foldl_cons, foldl_add_field add f v hf bs (add a b), hf]
    simp [add_assoc]

theorem foldl_keyOf_const {α β : Type} (add : α → β → α) (keyOf : α → String)
    (hAdd : ∀ a b, keyOf (add a b) = keyOf a) :
    ∀ (l : List β) (a : α), keyOf (l.foldl add a) = keyOf a
  | [], a => rfl
  | b :: bs, a => by
    rw [List.foldl_cons, foldl_keyOf_const add keyOf hAdd bs (add a b), hAdd]

section SortLemmas

variable {α : Type} (bf : α → α → Bool)

theorem insBefore_perm (x : α) : ∀ l : List α, (insBefore bf x l).Perm (x :: l)
  | [] => List.Perm.refl _
  | y :: ys => by
    unfold insBefore
    by_cases h : bf x y
    · rw [if_pos h]
    · rw [if_neg h]
      exact ((insBefore_perm x ys).cons y).trans (List.Perm.swap x y ys)

theorem stableSortBy_perm_aux : ∀ (l acc : List α),
    (l.foldl (fun acc x => insBefore bf x acc) acc).Perm (acc ++ l)
  | [], acc => by simp
  | x :: xs, acc => by
    rw [List.foldl_cons]
    refine (stableSortBy_perm_aux xs (insBefore bf x acc)).trans ?_
    refine (List.Perm.append_right xs ((insBefore_perm bf x acc))).trans ?_
    exact List.perm_middle.symm.trans (List.Perm.refl _) |>.symm |>.symm

theorem stableSortBy_perm (l : List α) : (stableSortBy bf l).Perm l :=
  stableSortBy_perm_aux bf l []

theorem mem_insBefore {y x : α} {l : List α} (h : y ∈ insBefore bf x l) :
    y = x ∨ y ∈ l :=
  List.mem_cons.mp ((insBefore_perm bf x l).mem_iff.mp h)

theorem insBefore_pairwise (P : α → α → Prop)
    (htr : ∀ x y z, bf x y = true → sortRel bf P y z → bf x z = true) :
    ∀ (l : List α) (x : α), l.Pairwise (sortRel bf P) → (∀ y ∈ l, P y x) →
      (insBefore bf x l).Pairwise (sortRel bf P)
  | [], x, _, _ => List.pairwise_singleton _ x
  | y :: ys, x, hpw, hP => by
    rw [List.pairwise_cons] at hpw
    obtain ⟨hy, hys⟩ := hpw
    unfold insBefore
    by_cases h : bf x y
    · rw [if_pos h]
      refine List.pairwise_cons.mpr ⟨?_, List.pairwise_cons.mpr ⟨hy, hys⟩⟩
      intro z hz
      rcases List.mem_cons.mp hz with rfl | hz
      · exact Or.inl h
      · exact Or.inl (htr x y z h (hy z hz))
    · rw [if_neg h]
      refine List.pairwise_cons.mpr ⟨?_, ?_⟩
      · intro z hz
        rcases mem_insBefore bf hz with rfl | hz
        · by_cases hyx : bf y z
          · exact Or.inl hyx
          · exact Or.inr ⟨Bool.eq_false_iff.mpr hyx,
              Bool.eq_false_iff.mpr (fun hc => h (by exact hc)),
              hP y (List.mem_cons_self y ys)⟩
        · exact hy z hz
      · exact insBefore_pairwise P htr ys x hys
          (fun z hz => hP z (List.mem_cons_of_mem y hz))

theorem stableSortBy_pairwise_aux (P : α → α → Prop)
    (htr : ∀ x y z, bf x y = true → sortRel bf P y z → bf x z = true) :
    ∀ (l acc : List α), l.Pairwise P → acc.Pairwise (sortRel bf P) →
      (∀ a ∈ acc, ∀ b ∈ l, P a b) →
      (l.foldl (fun acc x => insBefore bf x acc) acc).Pairwise (sortRel bf P)
  | [], acc, _, hacc, _ => hacc
  | x :: xs, acc, hl, hacc, hcross => by
    rw [List.foldl_cons]
    rw [List.pairwise_cons] at hl
    obtain ⟨hx, hxs⟩ := hl
    refine stableSortBy_pairwise_aux P htr xs (insBefore bf x acc) hxs ?_ ?_
    · exact insBefore_pairwise bf P htr acc x hacc
        (fun y hy => hcross y hy x (List.mem_cons_self x xs))
    · intro a ha b hb
      rcases mem_insBefore bf ha with rfl | ha
      · exact hx b hb
      · exact hcross a ha b (List.mem_cons_of_mem x hb)

theorem stableSortBy_pairwise (P : α → α → Prop)
    (htr : ∀ x y z, bf x y = true → sortRel bf P y z → bf x z = true)
    (l : List α) (hl : l.Pairwise P) :
    (stableSortBy bf l).Pairwise (sortRel bf P) :=
  stableSortBy_pairwise_aux bf P htr l [] hl (List.Pairwise.nil)
    (fun a ha => absurd ha (List.not_mem_nil a))

end SortLemmas

theorem pairwise_indexOf_of_map_eq {α : Type} (f : α → String) :
    ∀ (l : List α) (L : List String), l.map f = L → L.Nodup →
      l.Pairwise (fun a b => L.indexOf (f a) < L.indexOf (f b))
  | [], _, _, _ => List.Pairwise.nil
  | a :: tl, L, hmap, hnd => by
    rw [List.map_cons] at hmap
    subst hmap
    rw [List.nodup_cons] at hnd
    obtain ⟨hna, hnd⟩ := hnd
    refine List.pairwise_cons.mpr ⟨?_, ?_⟩
    · intro b hb
      have hfb : f b ∈ tl.map f := List.mem_map_of_mem f hb
      have hne : f b ≠ f a := fun hc => hna (hc ▸ hfb)
      rw [List.indexOf_cons_self, List.indexOf_cons_ne _ (fun hc => hne hc.symm)]
      exact Nat.succ_pos _
    · have ih := pairwise_indexOf_of_map_eq f tl (tl.map f) rfl hnd
      refine ih.imp_of_mem ?_
      intro x y hx hy hlt
      have hnex : f x ≠ f a := fun hc => hna (hc ▸ List.mem_map_of_mem f hx)
      have hney : f y ≠ f a := fun hc => hna (hc ▸ List.mem_map_of_mem f hy)
      rw [List.indexOf_cons_ne _ (fun hc => hnex hc.symm),
          List.indexOf_cons_ne _ (fun hc => hney hc.symm)]
      exact Nat.succ_lt_succ hlt

section GroupFoldSum

variable {α β M : Type} [AddCommMonoid M] (keyOf : α → String) (key : β → String)
  (emptyFor : String → α) (add : α → β → α) (f : α → M) (v : β → M)

theorem upsertBy_sum (hf : ∀ a b, f (add a b) = f a + v b)
    (hf0 : ∀ k, f (emptyFor k) = 0) :
    ∀ (acc : List α) (b : β),
      ((upsertBy keyOf key emptyFor add acc b).map f).sum = (acc.map f).sum + v b
  | [], b => by simp [upsertBy, hf, hf0]
  | e :: es, b => by
    unfold upsertBy
    by_cases h : keyOf e = key b
    · rw [if_pos h]
      simp only [List.map_cons, List.sum_cons, hf]
      rw [add_right_comm]
    · rw [if_neg h]
      simp only [List.map_cons, List.sum_cons, upsertBy_sum hf hf0 es b, add_assoc]

theorem groupFold_sum (hf : ∀ a b, f (add a b) = f a + v b)
    (hf0 : ∀ k, f (emptyFor k) = 0) :
    ∀ (l : List β) (acc : List α),
      ((groupFold keyOf key emptyFor add acc l).map f).sum
        = (acc.map f).sum + (l.map v).sum
  | [], acc => by simp [groupFold]
  | b :: bs, acc => by
    rw [groupFold, List.foldl_cons]
    rw [show (bs.foldl (upsertBy keyOf key emptyFor add)
          (upsertBy keyOf key emptyFor add acc b))
        = groupFold keyOf key emptyFor add (upsertBy keyOf key emptyFor add acc b) bs
      from rfl]
    rw [groupFold_sum hf hf0 bs _,
        upsertBy_sum keyOf key emptyFor add f v hf hf0 acc b]
    simp [add_assoc]

end GroupFoldSum

theorem sum_map_one {β : Type} : ∀ l : List β, (l.map fun _ => (1 : ℕ)).sum = l.length
  | [] => rfl
  | b :: bs => by simp [sum_map_one bs, Nat.add_comm]

theorem clientGroups_map_client (apis : List APIData) :
    (clientGroups apis).map ClientAcc.client = dedupFirst (apis.map APIData.client) := by
  rw [clientGroups,
      groupFold_map_keyOf ClientAcc.client APIData.client emptyClientAcc addClientAcc
        (fun a b => rfl) (fun k => rfl)]
  simp only [List.map_nil, List.nil_append]
  congr 1
  refine (List.filter_congr ?_).symm.trans (List.filter_true _) |>.symm |>.symm
  intro c _
  simp

theorem clientGroups_entry (apis : List APIData) :
    ∀ e ∈ clientGroups apis,
      e = (apis.filter (fun a => decide (a.client = e.client))).foldl addClientAcc
            (emptyClientAcc e.client) := by
  intro e he
  have hnd : ((clientGroups apis).map ClientAcc.client).Nodup := by
    rw [clientGroups_map_client]
    exact (dedupFirst_nodup_mem _).1
  have hl := lookupBy_self ClientAcc.client (clientGroups apis) hnd e he
  rw [clientGroups,
      lookupBy_groupFold ClientAcc.client APIData.client emptyClientAcc addClientAcc
        (fun a b => rfl) (fun k => rfl)] at hl
  simp only [lookupBy, List.find?_nil] at hl
  by_cases hm : e.client ∈ apis.map APIData.client
  · rw [if_pos hm] at hl
    exact (Option.some_inj.mp hl).symm
  · rw [if_neg hm] at hl
    exact absurd hl (by simp)

theorem clientGroups_fields (apis : List APIData) :
    ∀ g ∈ clientGroups apis,
      g.totalCalls
          = ((apis.filter (fun a => decide (a.client = g.client))).map (·.currentCalls)).sum
        ∧ g.previousCalls
          = ((apis.filter (fun a => decide (a.client = g.client))).map (·.previousCalls)).sum
        ∧ g.apiCount = (apis.filter (fun a => decide (a.client = g.client))).length := by
  intro g hg
  have hchar := clientGroups_entry apis g hg
  refine ⟨?_, ?_, ?_⟩
  · conv_lhs => rw [hchar]
    rw [foldl_add_field addClientAcc ClientAcc.totalCalls APIData.currentCalls
      (fun a b => rfl)]
    simp [emptyClientAcc]
  · conv_lhs => rw [hchar]
    rw [foldl_add_field addClientAcc ClientAcc.previousCalls APIData.previousCalls
      (fun a b => rfl)]
    simp [emptyClientAcc]
  · conv_lhs => rw [hchar]
    rw [foldl_add_field addClientAcc ClientAcc.apiCount (fun _ => (1 : ℕ))
      (fun a b => rfl)]
    simp [emptyClientAcc, sum_map_one]

theorem clientGroups_total_sum (apis : List APIData) :
    ((clientGroups apis).map ClientAcc.totalCalls).sum
      = (apis.map APIData.currentCalls).sum := by
  rw [clientGroups,
      groupFold_sum ClientAcc.client APIData.client emptyClientAcc addClientAcc
        ClientAcc.totalCalls APIData.currentCalls (fun a b => rfl) (fun k => rfl)]
  simp

theorem bfClientUsage_htr (P : ClientUsageData → ClientUsageData → Prop) :
    ∀ x y z, bfClientUsage x y = true → sortRel bfClientUsage P y z →
      bfClientUsage x z = true := by
  intro x y z hxy hyz
  simp only [bfClientUsage, decide_eq_true_eq] at hxy ⊢
  rcases hyz with h | ⟨h1, h2, _⟩
  · simp only [bfClientUsage, decide_eq_true_eq] at h
    omega
  · simp only [bfClientUsage, decide_eq_false_iff_not] at h1 h2
    omega

/-- C4: `getClientUsageData` partitions the records by client — one output
entry per distinct client, each entry's `apiCount` and `totalCalls` are the
member count and member `currentCalls` sum of that client's records, the
output `totalCalls` sum equals the input `currentCalls` sum, and the output
is ordered descending by `totalCalls` with ties broken by first-encountered
client (the order of `dedupFirst` over the input's client sequence). -/
theorem getClientUsageData_rollup (apis : List APIData) :
    ((getClientUsageData apis).map (·.client)).Perm (dedupFirst (apis.map (·.client)))
      ∧ (∀ c, c ∈ (getClientUsageData apis).map (·.client) ↔ c ∈ apis.map (·.client))
      ∧ (∀ e ∈ getClientUsageData apis,
          e.apiCount = (apis.filter (fun a => decide (a.client = e.client))).length
            ∧ e.totalCalls
              = ((apis.filter (fun a => decide (a.client = e.client))).map
                  (·.currentCalls)).sum)
      ∧ ((getClientUsageData apis).map (·.totalCalls)).sum
          = (apis.map (·.currentCalls)).sum
      ∧ (getClientUsageData apis).Pairwise (fun a b =>
          b.totalCalls < a.totalCalls
            ∨ (a.totalCalls = b.totalCalls
                ∧ (dedupFirst (apis.map (·.client))).indexOf a.client
                    < (dedupFirst (apis.map (·.client))).indexOf b.client)) := by
  have hcomp : ClientUsageData.client ∘ toClientUsage = ClientAcc.client :=
    funext fun e => rfl
  have hperm : (getClientUsageData apis).Perm ((clientGroups apis).map toClientUsage) :=
    stableSortBy_perm bfClientUsage _
  have hmapcl : ((clientGroups apis).map toClientUsage).map ClientUsageData.client
      = dedupFirst (apis.map APIData.client) := by
    rw [List.map_map, hcomp]
    exact clientGroups_map_client apis
  have hLnd : (dedupFirst (apis.map APIData.client)).Nodup := (dedupFirst_nodup_mem _).1
  refine ⟨?_, ?_, ?_, ?_, ?_⟩
  · exact hmapcl ▸ hperm.map ClientUsageData.client
  · intro c
    have h1 : c ∈ (getClientUsageData apis).map (·.client)
        ↔ c ∈ dedupFirst (apis.map APIData.client) :=
      hmapcl ▸ (hperm.map ClientUsageData.client).mem_iff
    rw [h1]
    exact (dedupFirst_nodup_mem _).2 c
  · intro e he
    have hem : e ∈ (clientGroups apis).map toClientUsage := hperm.mem_iff.mp he
    obtain ⟨g, hg, rfl⟩ := List.mem_map.mp hem
    have hf := clientGroups_fields apis g hg
    exact ⟨hf.2.2, hf.1⟩
  · have h1 : ((getClientUsageData apis).map (·.totalCalls)).sum
        = (((clientGroups apis).map toClientUsage).map (·.totalCalls)).sum :=
      (hperm.map ClientUsageData.totalCalls).sum_eq
    rw [h1, List.map_map,
        show ClientUsageData.totalCalls ∘ toClientUsage = ClientAcc.totalCalls from
          funext fun e => rfl]
    exact clientGroups_total_sum apis
  · have hpw0 : ((clientGroups apis).map toClientUsage).Pairwise
        (fun a b => (dedupFirst (apis.map APIData.client)).indexOf a.client
          < (dedupFirst (apis.map APIData.client)).indexOf b.client) :=
      pairwise_indexOf_of_map_eq ClientUsageData.client _ _ hmapcl hLnd
    have hpw1 := stableSortBy_pairwise bfClientUsage _ (bfClientUsage_htr _) _ hpw0
    refine hpw1.imp ?_
    intro a b hab
    rcases hab with h | ⟨h1, h2, h3⟩
    · exact Or.inl (by simpa [bfClientUsage] using h)
    · refine Or.inr ⟨?_, h3⟩
      simp only [bfClientUsage, decide_eq_false_iff_not] at h1 h2
      omega

/-- Witness for C4 on two records of client `"Acme"` with `currentCalls`
`100` and `200`: the single output entry is
`{client := "Acme", totalCalls := 300, apiCount := 2}`. -/
theorem getClientUsageData_rollup_witness :
    (⟨"Acme", 300, 2, JSVal.fin 200⟩ : ClientUsageData)
        ∈ getClientUsageData [mkApi "Acme" 100 80, mkApi "Acme" 200 20]
      ∧ (⟨"Acme", 300, 2, JSVal.fin 200⟩ : ClientUsageData).apiCount
          = ([mkApi "Acme" 100 80, mkApi "Acme" 200 20].filter
              (fun a => decide (a.client
                = (⟨"Acme", 300, 2, JSVal.fin 200⟩ : ClientUsageData).client))).length
      ∧ (⟨"Acme", 300, 2, JSVal.fin 200⟩ : ClientUsageData).totalCalls
          = (([mkApi "Acme" 100 80, mkApi "Acme" 200 20].filter
              (fun a => decide (a.client
                = (⟨"Acme", 300, 2, JSVal.fin 200⟩ : ClientUsageData).client))).map
              (·.currentCalls)).sum := by
  have hmem : (⟨"Acme", 300, 2, JSVal.fin 200⟩ : ClientUsageData)
      ∈ getClientUsageData [mkApi "Acme" 100 80, mkApi "Acme" 200 20] := by
    norm_num [getClientUsageData, clientGroups, groupFold, upsertBy, stableSortBy,
      insBefore, toClientUsage, emptyClientAcc, addClientAcc, mkApi, jsDiv, JSVal.mulC]
  have h := (getClientUsageData_rollup [mkApi "Acme" 100 80, mkApi "Acme" 200 20]).2.2.1
    _ hmem
  exact ⟨hmem, h.1, h.2⟩

namespace ClientDetailView

theorem dayGroups_eq_flat_aux :
    ∀ (apis : List APIData) (acc : List StatusDayData),
      apis.foldl
          (fun acc api =>
            api.statusTimeline.foldl
              (upsertBy StatusDayData.date TimelineEntry.date emptyStatusDay addStatusDay)
              acc)
          acc
        = groupFold StatusDayData.date TimelineEntry.date emptyStatusDay addStatusDay acc
            (apis.flatMap (·.statusTimeline))
  | [], acc => by simp [groupFold]
  | api :: rest, acc => by
    rw [List.foldl_cons, dayGroups_eq_flat_aux rest _]
    rw [show (api :: rest).flatMap (·.statusTimeline)
        = api.statusTimeline ++ rest.flatMap (·.statusTimeline) from rfl]
    rw [groupFold, groupFold, List.foldl_append]

theorem dayGroups_eq_flat (apis : List APIData) :
    dayGroups apis
      = groupFold StatusDayData.date TimelineEntry.date emptyStatusDay addStatusDay []
          (apis.flatMap (·.statusTimeline)) :=
  dayGroups_eq_flat_aux apis []

theorem dayGroups_map_date (apis : List APIData) :
    (dayGroups apis).map StatusDayData.date
      = dedupFirst ((apis.flatMap (·.statusTimeline)).map TimelineEntry.date) := by
  rw [dayGroups_eq_flat,
      groupFold_map_keyOf StatusDayData.date TimelineEntry.date emptyStatusDay addStatusDay
        (fun a b => rfl) (fun k => rfl)]
  simp only [List.map_nil, List.nil_append]
  congr 1
  refine (List.filter_congr ?_).symm.trans (List.filter_true _) |>.symm |>.symm
  intro c _
  simp

theorem dayGroups_entry (apis : List APIData) :
    ∀ e ∈ dayGroups apis,
      e = ((apis.flatMap (·.statusTimeline)).filter
            (fun d => decide (d.date = e.date))).foldl addStatusDay (emptyStatusDay e.date) := by
  intro e he
  have hnd : ((dayGroups apis).map StatusDayData.date).Nodup := by
    rw [dayGroups_map_date]
    exact (dedupFirst_nodup_mem _).1
  have hl := lookupBy_self StatusDayData.date (dayGroups apis) hnd e he
  rw [dayGroups_eq_flat,
      lookupBy_groupFold StatusDayData.date TimelineEntry.date emptyStatusDay addStatusDay
        (fun a b => rfl) (fun k => rfl)] at hl
  simp only [lookupBy, List.find?_nil] at hl
  by_cases hm : e.date ∈ (apis.flatMap (·.statusTimeline)).map TimelineEntry.date
  · rw [if_pos hm] at hl
    exact (Option.some_inj.mp hl).symm
  · rw [if_neg hm] at hl
    exact absurd hl (by simp)

theorem bfDate_htr :
    ∀ x y z, bfDate x y = true → sortRel bfDate (fun _ _ => True) y z →
      bfDate x z = true := by
  intro x y z hxy hyz
  simp only [bfDate, decide_eq_true_eq] at hxy ⊢
  rcases hyz with h | ⟨h1, h2, _⟩
  · simp only [bfDate, decide_eq_true_eq] at h
    exact lt_trans hxy h
  · simp only [bfDate, decide_eq_false_iff_not] at h1 h2
    have : y.date = z.date := le_antisymm (not_lt.mp h2) (not_lt.mp h1)
    exact this ▸ hxy

/-- C5: the daily status roll-up of `APIConsumptionChart` emits one entry per
distinct `statusTimeline` date, ordered strictly ascending by date; each
emitted count is the sum of that day's per-record contributions — `success`,
`sourceDown`, `notFound` summed directly, `timeout` as the sum of the
`Math.round(otherError * 0.4)` parts and `otherError` as the sum of the
remainders — and every entry satisfies the recomputed-total invariant
`total = success + sourceDown + notFound + timeout + otherError`. -/
theorem dailyStatusData_rollup (apis : List APIData) :
    ((dailyStatusData apis).map (·.date)).Perm
        (dedupFirst ((apis.flatMap (·.statusTimeline)).map (·.date)))
      ∧ (∀ d, d ∈ (dailyStatusData apis).map (·.date)
          ↔ d ∈ (apis.flatMap (·.statusTimeline)).map (·.date))
      ∧ (dailyStatusData apis).Pairwise (fun a b => a.date < b.date)
      ∧ (∀ e ∈ dailyStatusData apis,
          e.success = (((apis.flatMap (·.statusTimeline)).filter
              (fun d => decide (d.date = e.date))).map (·.success)).sum
            ∧ e.sourceDown = (((apis.flatMap (·.statusTimeline)).filter
                (fun d => decide (d.date = e.date))).map (·.sourceDown)).sum
            ∧ e.notFound = (((apis.flatMap (·.statusTimeline)).filter
                (fun d => decide (d.date = e.date))).map (·.notFound)).sum
            ∧ e.timeout = (((apis.flatMap (·.statusTimeline)).filter
                (fun d => decide (d.date = e.date))).map
                  (fun d => jsRound ((d.otherError : ℚ) * (2/5)))).sum
            ∧ e.otherError = (((apis.flatMap (·.statusTimeline)).filter
                (fun d => decide (d.date = e.date))).map
                  (fun d => d.otherError - jsRound ((d.otherError : ℚ) * (2/5)))).sum
            ∧ e.total = e.success + e.sourceDown + e.notFound + e.timeout + e.otherError) := by
  have hperm : (dailyStatusData apis).Perm (dayGroups apis) := stableSortBy_perm bfDate _
  have hmapd := dayGroups_map_date apis
  have hLnd : (dedupFirst ((apis.flatMap (·.statusTimeline)).map TimelineEntry.date)).Nodup :=
    (dedupFirst_nodup_mem _).1
  have hpermd : ((dailyStatusData apis).map StatusDayData.date).Perm
      (dedupFirst ((apis.flatMap (·.statusTimeline)).map TimelineEntry.date)) :=
    hmapd ▸ hperm.map StatusDayData.date
  refine ⟨hpermd, ?_, ?_, ?_⟩
  · intro d
    rw [hpermd.mem_iff]
    exact (dedupFirst_nodup_mem _).2 d
  · have hnd : ((dailyStatusData apis).map StatusDayData.date).Nodup :=
      hpermd.nodup_iff.mpr hLnd
    have hne : (dailyStatusData apis).Pairwise (fun a b => a.date ≠ b.date) :=
      List.pairwise_map.mp hnd
    have hpw1 := stableSortBy_pairwise bfDate (fun _ _ => True) bfDate_htr
      (dayGroups apis) (List.pairwise_iff_forall_sublist.mpr (fun _ => trivial))
    have hpw1' : (dailyStatusData apis).Pairwise (sortRel bfDate (fun _ _ => True)) := hpw1
    refine (hpw1'.and hne).imp ?_
    rintro a b ⟨hs, hne'⟩
    rcases hs with h | ⟨h1, h2, _⟩
    · simpa [bfDate] using h
    · simp only [bfDate, decide_eq_false_iff_not] at h1 h2
      exact absurd (le_antisymm (not_lt.mp h2) (not_lt.mp h1)) hne'
  · intro e he
    have heg : e ∈ dayGroups apis := hperm.mem_iff.mp he
    have hchar := dayGroups_entry apis e heg
    refine ⟨?_, ?_, ?_, ?_, ?_, ?_⟩
    · conv_lhs => rw [hchar]
      rw [foldl_add_field addStatusDay StatusDayData.success TimelineEntry.success
        (fun a b => rfl)]
      simp [emptyStatusDay]
    · conv_lhs => rw [hchar]
      rw [foldl_add_field addStatusDay StatusDayData.sourceDown TimelineEntry.sourceDown
        (fun a b => rfl)]
      simp [emptyStatusDay]
    · conv_lhs => rw [hchar]
      rw [foldl_add_field addStatusDay StatusDayData.notFound TimelineEntry.notFound
        (fun a b => rfl)]
      simp [emptyStatusDay]
    · conv_lhs => rw [hchar]
      rw [foldl_add_field addStatusDay StatusDayData.timeout
        (fun d => jsRound ((d.otherError : ℚ) * (2/5))) (fun a b => rfl)]
      simp [emptyStatusDay]
    · conv_lhs => rw [hchar]
      rw [foldl_add_field addStatusDay StatusDayData.otherError
        (fun d => d.otherError - jsRound ((d.otherError : ℚ) * (2/5))) (fun a b => rfl)]
      simp [emptyStatusDay]
    · have h1 := foldl_add_field addStatusDay
        (fun x : StatusDayData =>
          x.total - (x.success + x.sourceDown + x.notFound + x.timeout + x.otherError))
        (fun _ => (0 : ℤ))
        (by
          intro a b
          simp only [addStatusDay]
          ring)
        ((apis.flatMap (·.statusTimeline)).filter (fun d => decide (d.date = e.date)))
        (emptyStatusDay e.date)
      simp only [] at h1
      rw [← hchar] at h1
      simp [emptyStatusDay] at h1
      omega

end ClientDetailView

/-- Witness for C5 on one record whose single timeline day has counts
`success 10, sourceDown 5, notFound 3, otherError 7`: the emitted entry is
`{date, 10, 5, 3, timeout 3, otherError 4, total 25}` and satisfies the sum
invariant. -/
theorem dailyStatusData_rollup_witness :
    (⟨"2024-01-01", 10, 5, 3, 3, 4, 25⟩ : ClientDetailView.StatusDayData)
        ∈ ClientDetailView.dailyStatusData
            [{ mkApi "Acme" 0 0 with statusTimeline := [⟨"2024-01-01", 10, 5, 3, 7⟩] }]
      ∧ (⟨"2024-01-01", 10, 5, 3, 3, 4, 25⟩ : ClientDetailView.StatusDayData).total
          = (⟨"2024-01-01", 10, 5, 3, 3, 4, 25⟩ : ClientDetailView.StatusDayData).success
            + (⟨"2024-01-01", 10, 5, 3, 3, 4, 25⟩ : ClientDetailView.StatusDayData).sourceDown
            + (⟨"2024-01-01", 10, 5, 3, 3, 4, 25⟩ : ClientDetailView.StatusDayData).notFound
            + (⟨"2024-01-01", 10, 5, 3, 3, 4, 25⟩ : ClientDetailView.StatusDayData).timeout
            + (⟨"2024-01-01", 10, 5, 3, 3, 4, 25⟩ : ClientDetailView.StatusDayData).otherError := by
  have hmem : (⟨"2024-01-01", 10, 5, 3, 3, 4, 25⟩ : ClientDetailView.StatusDayData)
      ∈ ClientDetailView.dailyStatusData
          [{ mkApi "Acme" 0 0 with statusTimeline := [⟨"2024-01-01", 10, 5, 3, 7⟩] }] := by
    norm_num [ClientDetailView.dailyStatusData, ClientDetailView.dayGroups, groupFold,
      upsertBy, stableSortBy, insBefore, ClientDetailView.emptyStatusDay,
      ClientDetailView.addStatusDay, mkApi, jsRound]
  exact ⟨hmem,
    ((ClientDetailView.dailyStatusData_rollup
        [{ mkApi "Acme" 0 0 with statusTimeline := [⟨"2024-01-01", 10, 5, 3, 7⟩] }]).2.2.2
      _ hmem).2.2.2.2.2⟩

/-- C9: records with `statusBreakdown.sourceDown == 0` never appear in the
revenue-loss roll-up (`apiRevenueLoss`, from which all other loss roll-ups
are derived), and each day drill-down item's `contribution` equals
`revenueLoss / totalDayLoss * 100` when the day's total loss is positive and
is `0` for every item when the total is `0` — never `NaN`. -/
theorem revenueLoss_exclusion_and_contribution (apis : List APIData) (day : String) :
    (∀ api ∈ apis, api.statusBreakdown.sourceDown = 0 →
      ∀ e ∈ RevenueDetailView.apiRevenueLoss apis, e.api ≠ api)
      ∧ (∀ e ∈ RevenueDetailView.dayAPIsWithContribution apis day,
          (0 < RevenueDetailView.dayLossTotal apis day →
            e.contribution
              = e.revenueLoss / RevenueDetailView.dayLossTotal apis day * 100)
            ∧ (RevenueDetailView.dayLossTotal apis day = 0 → e.contribution = 0)) := by
  constructor
  · intro api hapi h0 e he
    have he' := (stableSortBy_perm RevenueDetailView.bfAPILoss _).mem_iff.mp he
    rw [List.mem_filter] at he'
    obtain ⟨hmem, hpred⟩ := he'
    obtain ⟨a, ha, rfl⟩ := List.mem_map.mp hmem
    simp only [decide_eq_true_eq] at hpred
    intro hcontra
    have ha' : a = api := hcontra
    rw [ha', h0] at hpred
    exact lt_irrefl 0 hpred
  · intro e he
    have he' := (stableSortBy_perm RevenueDetailView.bfDayAPI _).mem_iff.mp he
    obtain ⟨e₀, he₀, rfl⟩ := List.mem_map.mp he'
    constructor
    · intro hpos
      show (if 0 < RevenueDetailView.dayLossTotal apis day then
          e₀.revenueLoss / RevenueDetailView.dayLossTotal apis day * 100 else 0) = _
      rw [if_pos hpos]
    · intro h0
      show (if 0 < RevenueDetailView.dayLossTotal apis day then
          e₀.revenueLoss / RevenueDetailView.dayLossTotal apis day * 100 else 0) = 0
      rw [if_neg (by rw [h0]; exact lt_irrefl 0)]

/-- Witness for C9: of two records, the one with `sourceDown = 0` is excluded
from `apiRevenueLoss`, and the single remaining day item (loss `12.0` from
`1000` source-down calls at rate `0.012`) has `contribution = 100`. -/
theorem revenueLoss_exclusion_and_contribution_witness :
    mkApiSD "Beta" "api-10" 0 "2024-01-01" 0
        ∈ [mkApiSD "Acme" "api-9" 1000 "2024-01-01" 1000,
           mkApiSD "Beta" "api-10" 0 "2024-01-01" 0]
      ∧ (mkApiSD "Beta" "api-10" 0 "2024-01-01" 0).statusBreakdown.sourceDown = 0
      ∧ (⟨mkApiSD "Acme" "api-9" 1000 "2024-01-01" 1000, 1000, 12,
            [⟨"2024-01-01", 1000, 12⟩]⟩ : RevenueDetailView.APILoss)
          ∈ RevenueDetailView.apiRevenueLoss
              [mkApiSD "Acme" "api-9" 1000 "2024-01-01" 1000,
               mkApiSD "Beta" "api-10" 0 "2024-01-01" 0]
      ∧ (⟨mkApiSD "Acme" "api-9" 1000 "2024-01-01" 1000, 1000, 12,
            [⟨"2024-01-01", 1000, 12⟩]⟩ : RevenueDetailView.APILoss).api
          ≠ mkApiSD "Beta" "api-10" 0 "2024-01-01" 0
      ∧ 0 < RevenueDetailView.dayLossTotal
            [mkApiSD "Acme" "api-9" 1000 "2024-01-01" 1000,
             mkApiSD "Beta" "api-10" 0 "2024-01-01" 0] "2024-01-01"
      ∧ (⟨"api-9", "Payment Gateway", "Acme", 1000, 12, 100⟩ : RevenueDetailView.DayAPI)
          ∈ RevenueDetailView.dayAPIsWithContribution
              [mkApiSD "Acme" "api-9" 1000 "2024-01-01" 1000,
               mkApiSD "Beta" "api-10" 0 "2024-01-01" 0] "2024-01-01"
      ∧ (⟨"api-9", "Payment Gateway", "Acme", 1000, 12, 100⟩ : RevenueDetailView.DayAPI).contribution
          = (⟨"api-9", "Payment Gateway", "Acme", 1000, 12, 100⟩ : RevenueDetailView.DayAPI).revenueLoss
            / RevenueDetailView.dayLossTotal
                [mkApiSD "Acme" "api-9" 1000 "2024-01-01" 1000,
                 mkApiSD "Beta" "api-10" 0 "2024-01-01" 0] "2024-01-01" * 100 := by
  have hmemA : (⟨mkApiSD "Acme" "api-9" 1000 "2024-01-01" 1000, 1000, 12,
        [⟨"2024-01-01", 1000, 12⟩]⟩ : RevenueDetailView.APILoss)
      ∈ RevenueDetailView.apiRevenueLoss
          [mkApiSD "Acme" "api-9" 1000 "2024-01-01" 1000,
           mkApiSD "Beta" "api-10" 0 "2024-01-01" 0] := by
    norm_num [RevenueDetailView.apiRevenueLoss, RevenueDetailView.RATE_PER_CALL,
      stableSortBy, insBefore, mkApiSD]
  have hday : RevenueDetailView.dayAPIs
        [mkApiSD "Acme" "api-9" 1000 "2024-01-01" 1000,
         mkApiSD "Beta" "api-10" 0 "2024-01-01" 0] "2024-01-01"
      = [⟨"api-9", "Payment Gateway", "Acme", 1000, 12, 0⟩] := by
    norm_num [RevenueDetailView.dayAPIs, RevenueDetailView.apiRevenueLoss,
      RevenueDetailView.RATE_PER_CALL, stableSortBy, insBefore, mkApiSD,
      List.filterMap, List.find?]
  have htot : RevenueDetailView.dayLossTotal
        [mkApiSD "Acme" "api-9" 1000 "2024-01-01" 1000,
         mkApiSD "Beta" "api-10" 0 "2024-01-01" 0] "2024-01-01" = 12 := by
    rw [RevenueDetailView.dayLossTotal, hday]
    norm_num
  have hpos : (0 : ℚ) < RevenueDetailView.dayLossTotal
      [mkApiSD "Acme" "api-9" 1000 "2024-01-01" 1000,
       mkApiSD "Beta" "api-10" 0 "2024-01-01" 0] "2024-01-01" := by
    rw [htot]
    norm_num
  have hmem1 : (⟨"api-9", "Payment Gateway", "Acme", 1000, 12, 100⟩ : RevenueDetailView.DayAPI)
      ∈ RevenueDetailView.dayAPIsWithContribution
          [mkApiSD "Acme" "api-9" 1000 "2024-01-01" 1000,
           mkApiSD "Beta" "api-10" 0 "2024-01-01" 0] "2024-01-01" := by
    rw [RevenueDetailView.dayAPIsWithContribution, hday, htot]
    norm_num [stableSortBy, insBefore]
  have h := revenueLoss_exclusion_and_contribution
    [mkApiSD "Acme" "api-9" 1000 "2024-01-01" 1000,
     mkApiSD "Beta" "api-10" 0 "2024-01-01" 0] "2024-01-01"
  refine ⟨List.mem_cons_of_mem _ (List.mem_cons_self _ _), rfl, hmemA, ?_, hpos, hmem1, ?_⟩
  · exact h.1 _ (List.mem_cons_of_mem _ (List.mem_cons_self _ _)) rfl _ hmemA
  · exact (h.2 _ hmem1).1 hpos
